import Mathlib

/-!
Shallow embedding of the EC (Entity-Component) Manager from
`src/EC/Manager.hpp` of the repository.

The C++ `Manager<ComponentsList, TagsList>` is a template over a fixed, ordered
schema of `nc` component kinds and `nt` tag kinds.  The schema gives every kind
a stable bit position: component `k` has bit `k` and tag `t` has bit `nc + t`
(components first, then tags, in declaration order).  Here the schema is the
pair of parameters `(nc, nt)`, a component kind is its index `k < nc`, a tag
kind is its index `t < nt`, and component values of every kind live in a single
value type `V` (each kind still owns its own storage array, as in the source).

Machine integers (`std::size_t`) are modelled as `Nat`: none of the verified
code paths can overflow or wrap. `std::vector<T>::at` (which throws
`std::out_of_range`) is modelled with `Option`; unchecked `operator[]` accesses
are modelled with `getD`/`set`, which the manager's own invariants keep
in bounds exactly where the C++ keeps them in bounds.
-/

set_option linter.unusedSectionVars false

namespace EC

/-- One entity record, `std::tuple<bool, std::size_t, BitsetType>` in the
source (`Manager.hpp`, `EntitiesTupleType`): alive flag, data index into the
component arrays, and the membership bitset. -/
structure EntityRec where
  alive : Bool
  dataSlot : Nat
  membership : List Bool
deriving DecidableEq, Repr

/-- Default-constructed entity record (what `std::vector::resize` fills new
slots with before the constructor loop overwrites them). -/
instance : Inhabited EntityRec := ⟨⟨false, 0, []⟩⟩

/-- The manager state: `entities`, `componentsStorage`, `currentCapacity`,
`currentSize` and the stored matching functions of `Manager.hpp`.  A stored
matching function is represented by what the C++ lambda captures at
registration time: the precomputed signature bitset and the signature's
component kinds in signature order. -/
structure Manager (V : Type) where
  entities : List EntityRec
  componentsStorage : List (List V)
  currentCapacity : Nat
  currentSize : Nat
  forMatchingFunctions : List (List Bool × List Nat)
deriving DecidableEq

/-- Macro `EC_INIT_ENTITIES_SIZE` from `Manager.hpp`. -/
def EC_INIT_ENTITIES_SIZE : Nat := 256

/-- Macro `EC_GROW_SIZE_AMOUNT` from `Manager.hpp`. -/
def EC_GROW_SIZE_AMOUNT : Nat := 256

variable (nc nt : Nat) {V : Type} [Inhabited V]

/-- Unchecked `entities[i]` read (`operator[]`). -/
def recAt (es : List EntityRec) (i : Nat) : EntityRec := es.getD i default

/-- Modelled from the spec: `Bitset::reset()` of the missing `Bitset.hpp` —
all bits cleared, fixed width `nc + nt` (spec section 4.3). Applied to the
record at index `i`. -/
def resetBits (es : List EntityRec) (i : Nat) : List EntityRec :=
  es.set i { recAt es i with membership := List.replicate (nc + nt) false }

/-- Whole-record `std::swap(entities[lhs], entities.at(rhs))` on two in-range
indices. -/
def swapIdx (es : List EntityRec) (i j : Nat) : List EntityRec :=
  (es.set i (recAt es j)).set j (recAt es i)

/-- Private `Manager::resize(newCapacity)`: grows every component array and the
entity vector to `newCapacity`, writing `(false, i, Bitset{})` into each fresh
slot `i` in `[currentCapacity, newCapacity)`.  The translation uses the class
invariant `entities.size() == componentsStorage arrays' size == currentCapacity`
which the C++ maintains from construction on. -/
def resize (m : Manager V) (newCapacity : Nat) : Manager V :=
  if newCapacity ≤ m.currentCapacity then m
  else
    { m with
      componentsStorage :=
        m.componentsStorage.map
          (fun s => s ++ List.replicate (newCapacity - s.length) default),
      entities :=
        m.entities ++
          (List.range' m.currentCapacity (newCapacity - m.currentCapacity)).map
            (fun i =>
              { alive := false, dataSlot := i
                membership := List.replicate (nc + nt) false }),
      currentCapacity := newCapacity }

/-- The `Manager()` constructor: all fields empty, then
`resize(EC_INIT_ENTITIES_SIZE)`. -/
def mkManager : Manager V :=
  resize nc nt
    { entities := [], componentsStorage := List.replicate nc []
      currentCapacity := 0, currentSize := 0, forMatchingFunctions := [] }
    EC_INIT_ENTITIES_SIZE

/-- `Manager::addEntity()`: grow if full, set the alive flag of the slot at
`currentSize`, and return that position as the new entity's id together with
the updated manager. -/
def addEntity (m : Manager V) : Nat × Manager V :=
  let m1 :=
    if m.currentSize = m.currentCapacity then
      resize nc nt m (m.currentCapacity + EC_GROW_SIZE_AMOUNT)
    else m
  (m1.currentSize,
    { m1 with
      entities :=
        m1.entities.set m1.currentSize
          { recAt m1.entities m1.currentSize with alive := true },
      currentSize := m1.currentSize + 1 })

/-- `Manager::deleteEntity(index)`: `std::get<bool>(entities.at(index)) = false`.
`at` throws `std::out_of_range` for `index >= entities.size()`, modelled as
`none`. -/
def deleteEntity (m : Manager V) (index : Nat) : Option (Manager V) :=
  if index < m.entities.length then
    some
      { m with
        entities :=
          m.entities.set index { recAt m.entities index with alive := false } }
  else none

/-- `Manager::hasEntity(index)`: `index < currentSize`. -/
def hasEntity (m : Manager V) (index : Nat) : Bool :=
  index < m.currentSize

/-- `Manager::isAlive(index)`: `hasEntity(index) && std::get<bool>(entities.at(index))`.
The short-circuit guarantees the `at` access is below `currentSize`. -/
def isAlive (m : Manager V) (index : Nat) : Bool :=
  hasEntity m index && (recAt m.entities index).alive

/-- `Manager::getEntityInfo(index)`: `entities.at(index)`, `none` on the
out-of-range throw. -/
def getEntityInfo (m : Manager V) (index : Nat) : Option EntityRec :=
  m.entities[index]?

/-- `Manager::getEntityData<Component>(index)` for component kind `k`:
`std::get<std::vector<Component>>(componentsStorage).at(std::get<std::size_t>(entities.at(index)))`.
Both `at` accesses are checked; either throw is modelled as `none`.  Selecting
the storage array of kind `k` is the compile-time `std::get`, always valid for
a declared kind `k < nc`. -/
def getEntityData (k : Nat) (m : Manager V) (index : Nat) : Option V :=
  (m.entities[index]?).bind fun r => (m.componentsStorage.getD k [])[r.dataSlot]?

/-- Modelled from the spec: `Bitset::getComponentBit<Component>()` of the
missing `Bitset.hpp` reads bit `IndexOf<Component, ComponentsList> = k`
(spec section 4.3, pinned by `src/test/MetaTest.cpp`).
`Manager::hasComponent<Component>(index)` reads that bit of
`entities.at(index)`; the `at` throw is modelled as `none`. -/
def hasComponent (k : Nat) (m : Manager V) (index : Nat) : Option Bool :=
  (m.entities[index]?).map fun r => r.membership.getD k false

/-- Modelled from the spec: `Bitset::getTagBit<Tag>()` of the missing
`Bitset.hpp` reads bit `ComponentsList::size + IndexOf<Tag, TagsList> = nc + t`
(spec section 4.3, pinned by `src/test/MetaTest.cpp`).
`Manager::hasTag<Tag>(index)` reads that bit of `entities.at(index)`; the `at`
throw is modelled as `none`. -/
def hasTag (t : Nat) (m : Manager V) (index : Nat) : Option Bool :=
  (m.entities[index]?).map fun r => r.membership.getD (nc + t) false

/-- `Manager::addComponent<Component>(entityID, args...)` for component kind
`k`, where `v` is the component value constructed from `args`: no-op unless
the entity exists and is alive; otherwise sets membership bit `k` and writes
`v` into the kind's array at the entity's data slot. -/
def addComponent (k : Nat) (m : Manager V) (entityID : Nat) (v : V) : Manager V :=
  if !hasEntity m entityID || !isAlive m entityID then m
  else
    let r := recAt m.entities entityID
    { m with
      entities :=
        m.entities.set entityID { r with membership := r.membership.set k true },
      componentsStorage :=
        m.componentsStorage.set k
          ((m.componentsStorage.getD k []).set r.dataSlot v) }

/-- `Manager::removeComponent<Component>(entityID)` for component kind `k`:
no-op unless the entity exists and is alive; otherwise clears membership bit
`k` only — component storage is untouched. -/
def removeComponent (k : Nat) (m : Manager V) (entityID : Nat) : Manager V :=
  if !hasEntity m entityID || !isAlive m entityID then m
  else
    let r := recAt m.entities entityID
    { m with
      entities :=
        m.entities.set entityID { r with membership := r.membership.set k false } }

/-- `Manager::addTag<Tag>(entityID)` for tag kind `t`: no-op unless the entity
exists and is alive; otherwise sets membership bit `nc + t`. -/
def addTag (t : Nat) (m : Manager V) (entityID : Nat) : Manager V :=
  if !hasEntity m entityID || !isAlive m entityID then m
  else
    let r := recAt m.entities entityID
    { m with
      entities :=
        m.entities.set entityID
          { r with membership := r.membership.set (nc + t) true } }

/-- `Manager::removeTag<Tag>(entityID)` for tag kind `t`: no-op unless the
entity exists and is alive; otherwise clears membership bit `nc + t`. -/
def removeTag (t : Nat) (m : Manager V) (entityID : Nat) : Manager V :=
  if !hasEntity m entityID || !isAlive m entityID then m
  else
    let r := recAt m.entities entityID
    { m with
      entities :=
        m.entities.set entityID
          { r with membership := r.membership.set (nc + t) false } }

/-- The inner `while(!std::get<bool>(entities[rhs]))` loop of
`Manager::cleanup()`: walks `rhs` down over dead records, resetting their
bitsets; `inl` is the early `currentSize = 0; return` taken when `rhs == 0`
is reached on a dead record (note: that record's bitset is not reset), `inr`
returns the updated records and the first `rhs` holding an alive record. -/
def innerWhile (es : List EntityRec) (rhs : Nat) : (List EntityRec) ⊕ (List EntityRec × Nat) :=
  if (recAt es rhs).alive then .inr (es, rhs)
  else
    match rhs with
    | 0 => .inl es
    | r + 1 => innerWhile (resetBits nc nt es (r + 1)) r

theorem innerWhile_inr_le {es e' : List EntityRec} {rhs r' : Nat}
    (h : innerWhile nc nt es rhs = .inr (e', r')) : r' ≤ rhs := by
  induction rhs using Nat.strong_induction_on generalizing es with
  | _ rhs ih =>
    rw [innerWhile.eq_def] at h
    split at h
    · cases h; exact Nat.le_refl _
    · match rhs, h with
      | r + 1, h =>
        exact Nat.le_trans (ih r (Nat.lt_succ_self r) h) (Nat.le_succ r)

/-- The outer `while(lhs < rhs)` loop of `Manager::cleanup()` together with the
final `currentSize = rhs + 1`: each iteration first runs the inner scan from
`rhs`, then either breaks (`lhs >= rhs`), swaps a dead `lhs` record with the
alive `rhs` record and resets the vacated slot, or advances `lhs` over an
alive record.  Returns the updated records and the new `currentSize`. -/
def cleanupGo (es : List EntityRec) (lhs rhs : Nat) : List EntityRec × Nat :=
  if lhs < rhs then
    match h : innerWhile nc nt es rhs with
    | .inl e' => (e', 0)
    | .inr (e', r') =>
      if lhs ≥ r' then (e', r' + 1)
      else if !(recAt e' lhs).alive then
        cleanupGo (resetBits nc nt (swapIdx e' lhs r') r') (lhs + 1) (r' - 1)
      else cleanupGo e' (lhs + 1) r'
  else (es, rhs + 1)
termination_by rhs - lhs
decreasing_by
  · have h1 := innerWhile_inr_le nc nt h
    omega
  · have h1 := innerWhile_inr_le nc nt h
    omega

/-- Fueled twin of `cleanupGo`, structurally recursive on `fuel` so that the
kernel can evaluate it on concrete states; `cleanupGoF_eq_cleanupGo` shows it
agrees with `cleanupGo` whenever `rhs - lhs < fuel` (the fuel-exhausted
equation is then never taken). -/
def cleanupGoF : Nat → List EntityRec → Nat → Nat → List EntityRec × Nat
  | 0, es, _, rhs => (es, rhs + 1)
  | fuel + 1, es, lhs, rhs =>
    if lhs < rhs then
      match innerWhile nc nt es rhs with
      | .inl e' => (e', 0)
      | .inr (e', r') =>
        if lhs ≥ r' then (e', r' + 1)
        else if !(recAt e' lhs).alive then
          cleanupGoF fuel (resetBits nc nt (swapIdx e' lhs r') r') (lhs + 1) (r' - 1)
        else cleanupGoF fuel e' (lhs + 1) r'
    else (es, rhs + 1)

/-- `Manager::cleanup()`: returns unchanged when `currentSize == 0`, otherwise
runs the two-pointer pass from `lhs = 0`, `rhs = currentSize - 1`. -/
def cleanup (m : Manager V) : Manager V :=
  if m.currentSize = 0 then m
  else
    let p := cleanupGo nc nt m.entities 0 (m.currentSize - 1)
    { m with entities := p.1, currentSize := p.2 }

/-- Kernel-computable twin of `cleanup`, running the fueled pass with fuel
`currentSize`; `cleanup_eq_cleanupF` shows it equals `cleanup`. -/
def cleanupF (m : Manager V) : Manager V :=
  if m.currentSize = 0 then m
  else
    let p := cleanupGoF nc nt m.currentSize m.entities 0 (m.currentSize - 1)
    { m with entities := p.1, currentSize := p.2 }

/-- Modelled from the spec: `BitsetType::generateBitset<Signature>()` of the
missing `Bitset.hpp` — the width-`nc + nt` bitset with exactly the bits of the
signature's kinds set (spec sections 4.3 and 4.5).  A signature is given as
the list of its kinds' bit positions (component `k` at `k`, tag `t` at
`nc + t`). -/
def generateBitset (sig : List Nat) : List Bool :=
  (List.range (nc + nt)).map fun i => sig.contains i

/-- Bitwise AND of two bitsets (`operator&` of the missing `Bitset.hpp`,
spec section 4.3). -/
def bitsetAnd (a b : List Bool) : List Bool :=
  List.zipWith (· && ·) a b

/-- Modelled from the spec: `EC::Meta::Matching<Signature, ComponentsList>` of
the missing `Matching.hpp` — the signature's component kinds, in signature
order, tags excluded (spec section 4.5: handler arguments are "in the
signature's component order (tags excluded)"). -/
def signatureComponents (sig : List Nat) : List Nat :=
  sig.filter (· < nc)

/-- `Manager::forMatchingSignature<Signature>(function)`: scans ids
`0..currentSize`, skips dead records, and for each record whose membership
ANDed with the signature bitset equals the signature bitset calls
`function(i, getEntityData<Types>(i)...)`.  The embedding returns the list of
invocations: each element is the id passed to the handler together with the
component values (at the entity's data slot, in the signature's component
order) whose references the handler receives. -/
def forMatchingSignature (sig : List Nat) (m : Manager V) : List (Nat × List V) :=
  let signatureBitset := generateBitset nc nt sig
  (List.range m.currentSize).filterMap fun i =>
    let r := recAt m.entities i
    if !r.alive then none
    else if bitsetAnd signatureBitset r.membership == signatureBitset then
      some (i, (signatureComponents nc sig).map fun k =>
        (m.componentsStorage.getD k []).getD r.dataSlot default)
    else none

/-- `Manager::addForMatchingFunction<Signature>(function)`: precomputes the
signature bitset and the signature's component kinds and appends the stored
function (`emplace_back`). -/
def addForMatchingFunction (sig : List Nat) (m : Manager V) : Manager V :=
  { m with
    forMatchingFunctions :=
      m.forMatchingFunctions ++
        [(generateBitset nc nt sig, signatureComponents nc sig)] }

/-- The body of the lambda stored by `Manager::addForMatchingFunction`
(`Manager.hpp` lines 463-475): its own `for` loop over `0..currentSize` against
the manager state current at call time, using the captured signature bitset
`reg.1` and captured helper component list `reg.2`.  Returns the invocation
list, like `forMatchingSignature`. -/
def storedLoop (reg : List Bool × List Nat) (m : Manager V) (i : Nat) : List (Nat × List V) :=
  if i < m.currentSize then
    (let r := recAt m.entities i
     if !r.alive then []
     else if bitsetAnd reg.1 r.membership == reg.1 then
       [(i, reg.2.map fun k =>
           (m.componentsStorage.getD k []).getD r.dataSlot default)]
     else []) ++ storedLoop reg m (i + 1)
  else []
termination_by m.currentSize - i

/-- `Manager::callForMatchingFunctions()`: runs every stored function in
storage (registration) order; each invocation list is produced against the
current manager state. -/
def callForMatchingFunctions (m : Manager V) : List (List (Nat × List V)) :=
  m.forMatchingFunctions.map fun reg => storedLoop reg m 0

/-- `Manager::clearForMatchingFunctions()`. -/
def clearForMatchingFunctions (m : Manager V) : Manager V :=
  { m with forMatchingFunctions := [] }

/-- Data slot of the record at index `i`. -/
def dsAt (es : List EntityRec) (i : Nat) : Nat :=
  (recAt es i).dataSlot

/-- Structural well-formedness of an entity vector of capacity `cap` with
bitset width `w`: right length, every data slot below `cap`, data slots
pairwise distinct, every membership bitset of width `w`. -/
def GoodEnts (es : List EntityRec) (cap w : Nat) : Prop :=
  es.length = cap ∧
  (∀ i, i < cap → dsAt es i < cap) ∧
  (∀ i j, i < cap → j < cap → dsAt es i = dsAt es j → i = j) ∧
  (∀ r ∈ es, r.membership.length = w)

/-- The manager invariant maintained by every operation of `Manager.hpp`:
well-formed entity vector, `currentSize ≤ currentCapacity`, one storage array
per component kind, each sized to capacity, and every record at or beyond
`currentSize` not alive. -/
def Inv (m : Manager V) : Prop :=
  GoodEnts m.entities m.currentCapacity (nc + nt) ∧
  m.currentSize ≤ m.currentCapacity ∧
  m.componentsStorage.length = nc ∧
  (∀ s ∈ m.componentsStorage, s.length = m.currentCapacity) ∧
  (∀ i, m.currentSize ≤ i → i < m.currentCapacity → (recAt m.entities i).alive = false)

/-- States reachable from a freshly constructed manager by the public mutating
operations of `Manager.hpp`.  `deleteEntity` contributes a step only when it
does not throw. -/
inductive Reachable : Manager V → Prop where
  | init : Reachable (mkManager nc nt)
  | stepAddEntity {m : Manager V} : Reachable m → Reachable (addEntity nc nt m).2
  | stepDeleteEntity {m m' : Manager V} {i : Nat} :
      Reachable m → deleteEntity m i = some m' → Reachable m'
  | stepAddComponent {m : Manager V} {k i : Nat} {v : V} :
      Reachable m → Reachable (addComponent k m i v)
  | stepRemoveComponent {m : Manager V} {k i : Nat} :
      Reachable m → Reachable (removeComponent k m i)
  | stepAddTag {m : Manager V} {t i : Nat} :
      Reachable m → Reachable (addTag nc t m i)
  | stepRemoveTag {m : Manager V} {t i : Nat} :
      Reachable m → Reachable (removeTag nc t m i)
  | stepCleanup {m : Manager V} : Reachable m → Reachable (cleanup nc nt m)

/-- Concrete schema used for all concrete checks below: two component kinds
(bits 0 and 1), one tag kind (bit 2), `Nat`-valued components. -/
def baseManager : Manager Nat := mkManager 2 1

/-- One entity created and then marked deleted: `currentSize = 1`, record 0
dead. -/
def stateC1 : Manager Nat :=
  let m0 := (addEntity 2 1 baseManager).2
  (deleteEntity m0 0).getD m0

/-- Three entities created, entity 0 marked deleted. -/
def stateC8a : Manager Nat :=
  let m3 := (addEntity 2 1 (addEntity 2 1 (addEntity 2 1 baseManager).2).2).2
  (deleteEntity m3 0).getD m3

/-- Three entities created, entities 0 and 1 marked deleted. -/
def stateC8 : Manager Nat :=
  (deleteEntity stateC8a 1).getD stateC8a

/-- Two live entities on the concrete schema. -/
def twoEnt : Manager Nat := (addEntity 2 1 (addEntity 2 1 baseManager).2).2

/-- The state `twoEnt` with entity 0 marked deleted. -/
def stateC3b : Manager Nat := (deleteEntity twoEnt 0).getD twoEnt

/-- The state `stateC3b` compacted: entity 1 is swapped into slot 0 (keeping
its data slot 1), `currentSize = 1`. -/
def stateC3c : Manager Nat := cleanupF 2 1 stateC3b

/-- A new entity created on `stateC3c` (slot 1 reused, its data slot is 0),
then the entity at id 0 is given component 0 with value 42. -/
def stateC3d : Manager Nat := addComponent 0 (addEntity 2 1 stateC3c).2 0 42

/-- The state `stateC3d` with entity 0 marked deleted. -/
def stateC3e : Manager Nat := (deleteEntity stateC3d 0).getD stateC3d

/-- The state `stateC3e` with entity 1 marked deleted as well. -/
def stateC3f : Manager Nat := (deleteEntity stateC3e 1).getD stateC3e

/-- The state `stateC3f` after a final compaction, which takes the
early-return path of `cleanup` (`rhs == 0` on a dead record) and therefore
leaves slot 0 with a stale data slot and a stale membership bitset while
`currentSize` becomes 0. -/
def stateC3 : Manager Nat := cleanupF 2 1 stateC3f

/-- Two live entities, entity 0 carrying component 0 with value 7. -/
def entWithC0 : Manager Nat := addComponent 0 twoEnt 0 7

/-- The state `entWithC0` with one stored matching function for the
signature consisting of component 0. -/
def regState : Manager Nat := addForMatchingFunction 2 1 [0] entWithC0

theorem cleanupGoF_eq_cleanupGo {fuel : Nat} {es : List EntityRec} {lhs rhs : Nat}
    (hf : rhs - lhs < fuel) :
    cleanupGoF nc nt fuel es lhs rhs = cleanupGo nc nt es lhs rhs := by
  induction fuel generalizing es lhs rhs with
  | zero => omega
  | succ fuel ih =>
    rw [cleanupGoF, cleanupGo.eq_def]
    split
    · rename_i hlt
      cases hiw : innerWhile nc nt es rhs with
      | inl e' => rfl
      | inr p =>
        obtain ⟨e', r'⟩ := p
        have hr' : r' ≤ rhs := innerWhile_inr_le nc nt hiw
        simp only []
        split
        · rfl
        · rename_i hge
          split
          · exact ih (by omega)
          · exact ih (by omega)
    · rfl

theorem cleanup_eq_cleanupF (m : Manager V) : cleanup nc nt m = cleanupF nc nt m := by
  rw [cleanup, cleanupF]
  split
  · rfl
  · rename_i h
    rw [cleanupGoF_eq_cleanupGo]
    omega

theorem recAt_set_self {es : List EntityRec} {i : Nat} {r : EntityRec}
    (h : i < es.length) : recAt (es.set i r) i = r := by
  rw [recAt, List.getD_eq_getElem?_getD, List.getElem?_set_self (by simpa using h)]
  rfl

theorem recAt_set_ne {es : List EntityRec} {i j : Nat} {r : EntityRec}
    (h : j ≠ i) : recAt (es.set i r) j = recAt es j := by
  rw [recAt, recAt, List.getD_eq_getElem?_getD, List.getD_eq_getElem?_getD,
    List.getElem?_set_ne (fun he => h he.symm)]

theorem recAt_mem {es : List EntityRec} {i : Nat} (h : i < es.length) :
    recAt es i ∈ es := by
  rw [recAt, List.getD_eq_getElem?_getD, List.getElem?_eq_getElem h]
  exact List.getElem_mem h

theorem set_recAt_self {es : List EntityRec} {i : Nat} (h : i < es.length) :
    es.set i (recAt es i) = es := by
  apply List.ext_getElem?
  intro n
  rcases eq_or_ne n i with rfl | hne
  · rw [List.getElem?_set_self h, recAt, List.getD_eq_getElem?_getD,
      List.getElem?_eq_getElem h]
    rfl
  · rw [List.getElem?_set_ne (fun he => hne he.symm)]

theorem length_resetBits (es : List EntityRec) (i : Nat) :
    (resetBits nc nt es i).length = es.length :=
  List.length_set es i _

theorem recAt_resetBits_fields (es : List EntityRec) (i q : Nat) :
    (recAt (resetBits nc nt es i) q).alive = (recAt es q).alive ∧
    (recAt (resetBits nc nt es i) q).dataSlot = (recAt es q).dataSlot := by
  rw [resetBits]
  rcases Nat.lt_or_ge i es.length with hi | hi
  · rcases eq_or_ne q i with rfl | hne
    · rw [recAt_set_self hi]
      exact ⟨rfl, rfl⟩
    · rw [recAt_set_ne hne]
      exact ⟨rfl, rfl⟩
  · rw [List.set_eq_of_length_le hi]
    exact ⟨rfl, rfl⟩

theorem dsAt_resetBits (es : List EntityRec) (i q : Nat) :
    dsAt (resetBits nc nt es i) q = dsAt es q :=
  (recAt_resetBits_fields nc nt es i q).2

theorem goodEnts_resetBits {es : List EntityRec} {cap : Nat} (i : Nat)
    (hg : GoodEnts es cap (nc + nt)) :
    GoodEnts (resetBits nc nt es i) cap (nc + nt) := by
  obtain ⟨hl, hr, hinj, hw⟩ := hg
  refine ⟨(length_resetBits nc nt es i).trans hl, ?_, ?_, ?_⟩
  · intro q hq
    rw [dsAt_resetBits]
    exact hr q hq
  · intro a b ha hb hab
    rw [dsAt_resetBits, dsAt_resetBits] at hab
    exact hinj a b ha hb hab
  · intro r hmem
    rcases List.mem_or_eq_of_mem_set hmem with h | rfl
    · exact hw r h
    · exact List.length_replicate _ _

theorem length_swapIdx (es : List EntityRec) (i j : Nat) :
    (swapIdx es i j).length = es.length := by
  rw [swapIdx, List.length_set, List.length_set]

theorem recAt_swapIdx_snd {es : List EntityRec} {i j : Nat}
    (hj : j < es.length) : recAt (swapIdx es i j) j = recAt es i := by
  rw [swapIdx, recAt_set_self (by simpa using hj)]

theorem recAt_swapIdx_fst {es : List EntityRec} {i j : Nat}
    (hi : i < es.length) (hne : i ≠ j) : recAt (swapIdx es i j) i = recAt es j := by
  rw [swapIdx, recAt_set_ne hne, recAt_set_self hi]

theorem recAt_swapIdx_other {es : List EntityRec} {i j q : Nat}
    (hqi : q ≠ i) (hqj : q ≠ j) : recAt (swapIdx es i j) q = recAt es q := by
  rw [swapIdx, recAt_set_ne hqj, recAt_set_ne hqi]

theorem dsAt_swapIdx {es : List EntityRec} {i j : Nat}
    (hi : i < es.length) (hj : j < es.length) (q : Nat) :
    dsAt (swapIdx es i j) q =
      dsAt es (if q = j then i else if q = i then j else q) := by
  rcases eq_or_ne q j with rfl | hqj
  · rw [if_pos rfl, dsAt, recAt_swapIdx_snd hj]
    rfl
  · rcases eq_or_ne q i with rfl | hqi
    · rw [if_neg hqj, if_pos rfl, dsAt, recAt_swapIdx_fst hi (by omega)]
      rfl
    · rw [if_neg hqj, if_neg hqi, dsAt, recAt_swapIdx_other hqi hqj]
      rfl

theorem goodEnts_swapIdx {es : List EntityRec} {cap i j : Nat}
    (hg : GoodEnts es cap (nc + nt)) (hi : i < cap) (hj : j < cap) :
    GoodEnts (swapIdx es i j) cap (nc + nt) := by
  obtain ⟨hl, hr, hinj, hw⟩ := hg
  have hi' : i < es.length := hl ▸ hi
  have hj' : j < es.length := hl ▸ hj
  have hperm : ∀ q, q < cap → (if q = j then i else if q = i then j else q) < cap := by
    intro q hq
    split
    · exact hi
    · split
      · exact hj
      · exact hq
  refine ⟨(length_swapIdx es i j).trans hl, ?_, ?_, ?_⟩
  · intro q hq
    rw [dsAt_swapIdx hi' hj']
    exact hr _ (hperm q hq)
  · intro a b ha hb hab
    rw [dsAt_swapIdx hi' hj', dsAt_swapIdx hi' hj'] at hab
    have := hinj _ _ (hperm a ha) (hperm b hb) hab
    split at this <;> split at this <;>
      first
        | omega
        | (split at this <;> first | omega | (split at this <;> omega))
  · intro r hmem
    rw [swapIdx] at hmem
    rcases List.mem_or_eq_of_mem_set hmem with h | rfl
    · rcases List.mem_or_eq_of_mem_set h with h2 | rfl
      · exact hw r h2
      · exact hw _ (recAt_mem hj')
    · exact hw _ (recAt_mem hi')

theorem innerWhile_spec {cap : Nat} {rhs : Nat} {es : List EntityRec}
    (hrhs : rhs < cap) (hg : GoodEnts es cap (nc + nt))
    (hdead : ∀ j, rhs < j → j < cap → (recAt es j).alive = false) :
    (∀ e', innerWhile nc nt es rhs = .inl e' →
      GoodEnts e' cap (nc + nt) ∧ ∀ j, j < cap → (recAt e' j).alive = false) ∧
    (∀ e' r', innerWhile nc nt es rhs = .inr (e', r') →
      GoodEnts e' cap (nc + nt) ∧ r' ≤ rhs ∧ (recAt e' r').alive = true ∧
      ∀ j, r' < j → j < cap → (recAt e' j).alive = false) := by
  induction rhs generalizing es with
  | zero =>
    rw [innerWhile]
    split
    · rename_i halive
      constructor
      · intro e' he
        cases he
      · intro e' r' he
        injection he with he1
        injection he1 with he2 he3
        subst he2; subst he3
        exact ⟨hg, Nat.le_refl _, halive, hdead⟩
    · rename_i hdead0
      constructor
      · intro e' he
        injection he with he1
        subst he1
        refine ⟨hg, ?_⟩
        intro j hj
        rcases Nat.eq_zero_or_pos j with rfl | hpos
        · simpa using hdead0
        · exact hdead j hpos hj
      · intro e' r' he
        cases he
  | succ r ih =>
    rw [innerWhile]
    split
    · rename_i halive
      constructor
      · intro e' he
        cases he
      · intro e' r' he
        injection he with he1
        injection he1 with he2 he3
        subst he2; subst he3
        exact ⟨hg, Nat.le_refl _, halive, hdead⟩
    · rename_i hdeadr
      have hg' := goodEnts_resetBits nc nt (r + 1) hg
      have hdead' : ∀ j, r < j → j < cap →
          (recAt (resetBits nc nt es (r + 1)) j).alive = false := by
        intro j hrj hj
        rw [(recAt_resetBits_fields nc nt es (r + 1) j).1]
        rcases eq_or_ne j (r + 1) with rfl | hne
        · simpa using hdeadr
        · exact hdead j (by omega) hj
      have := ih (by omega) hg' hdead'
      constructor
      · intro e' he
        exact this.1 e' he
      · intro e' r' he
        obtain ⟨h1, h2, h3, h4⟩ := this.2 e' r' he
        exact ⟨h1, by omega, h3, h4⟩

theorem cleanupGo_spec (es : List EntityRec) (lhs rhs cap : Nat)
    (hrhs : rhs < cap) (hg : GoodEnts es cap (nc + nt))
    (hdead : ∀ j, rhs < j → j < cap → (recAt es j).alive = false) :
    GoodEnts (cleanupGo nc nt es lhs rhs).1 cap (nc + nt) ∧
    (cleanupGo nc nt es lhs rhs).2 ≤ rhs + 1 ∧
    (∀ j, (cleanupGo nc nt es lhs rhs).2 ≤ j → j < cap →
      (recAt (cleanupGo nc nt es lhs rhs).1 j).alive = false) := by
  rw [cleanupGo.eq_def]
  split
  · rename_i hlt
    split
    · rename_i e' heq
      obtain ⟨hge, hde⟩ := (innerWhile_spec nc nt hrhs hg hdead).1 e' heq
      exact ⟨hge, by omega, fun j _ hj => hde j hj⟩
    · rename_i e' r' heq
      obtain ⟨hge, hr', halive, hde⟩ := (innerWhile_spec nc nt hrhs hg hdead).2 e' r' heq
      split

      · exact ⟨hge, by omega, fun j hj1 hj2 => hde j (by omega) hj2⟩
      · rename_i hlt'
        have hlr : lhs < r' := by omega
        split
        · rename_i hdl
          have hlen : e'.length = cap := hge.1
          have hg2 : GoodEnts (resetBits nc nt (swapIdx e' lhs r') r') cap (nc + nt) :=
            goodEnts_resetBits nc nt r' (goodEnts_swapIdx nc nt hge (by omega) (by omega))
          have hdead2 : ∀ j, r' - 1 < j → j < cap →
              (recAt (resetBits nc nt (swapIdx e' lhs r') r') j).alive = false := by
            intro j hj1 hj2
            rw [(recAt_resetBits_fields nc nt _ r' j).1]
            rcases eq_or_ne j r' with rfl | hne
            · rw [recAt_swapIdx_snd (by omega)]
              simpa using hdl
            · rw [recAt_swapIdx_other (by omega) hne]
              exact hde j (by omega) hj2
          obtain ⟨ha, hb, hc⟩ := cleanupGo_spec _ (lhs + 1) _ cap
            (by omega) hg2 hdead2
          exact ⟨ha, by omega, hc⟩
        · obtain ⟨ha, hb, hc⟩ := cleanupGo_spec _ (lhs + 1) _ cap
            (by omega) hge hde
          exact ⟨ha, by omega, hc⟩
  · exact ⟨hg, Nat.le_refl _, fun j hj1 hj2 => hdead j (by omega) hj2⟩
termination_by rhs - lhs
decreasing_by
  · omega
  · omega

theorem inv_resize {m : Manager V} (hm : Inv nc nt m) (n : Nat) :
    Inv nc nt (resize nc nt m n) := by
  rw [resize]
  split
  · exact hm
  · rename_i hgt
    have hltn : m.currentCapacity < n := by omega
    obtain ⟨⟨hl, hr, hinj, hw⟩, hsz, hsl, hss, hdead⟩ := hm
    set pad := (List.range' m.currentCapacity (n - m.currentCapacity)).map
      (fun i => ({ alive := false, dataSlot := i
                   membership := List.replicate (nc + nt) false } : EntityRec)) with hpad
    have hpadlen : pad.length = n - m.currentCapacity := by
      rw [hpad, List.length_map, List.length_range']
    have hq1 : ∀ q, q < m.currentCapacity → recAt (m.entities ++ pad) q = recAt m.entities q := by
      intro q hq
      rw [recAt, recAt, List.getD_eq_getElem?_getD, List.getD_eq_getElem?_getD,
        List.getElem?_append, if_pos (by omega)]
    have hq2 : ∀ q, m.currentCapacity ≤ q → q < n →
        recAt (m.entities ++ pad) q =
          { alive := false, dataSlot := q, membership := List.replicate (nc + nt) false } := by
      intro q hq1' hq2'
      rw [recAt, List.getD_eq_getElem?_getD, List.getElem?_append, if_neg (by omega), hpad,
        List.getElem?_map, hl, List.getElem?_range' _ _ (by omega)]
      have hq : m.currentCapacity + 1 * (q - m.currentCapacity) = q := by omega
      rw [hq]
      rfl
    have hds1 : ∀ q, q < m.currentCapacity →
        dsAt (m.entities ++ pad) q = dsAt m.entities q := by
      intro q hq
      rw [dsAt, hq1 q hq]
      rfl
    have hds2 : ∀ q, m.currentCapacity ≤ q → q < n → dsAt (m.entities ++ pad) q = q := by
      intro q h1 h2
      rw [dsAt, hq2 q h1 h2]
    refine ⟨⟨?_, ?_, ?_, ?_⟩, ?_, ?_, ?_, ?_⟩ <;> dsimp only
    · rw [List.length_append, hl, hpadlen]
      omega
    · intro q hq
      rcases Nat.lt_or_ge q m.currentCapacity with hlt | hge
      · rw [hds1 q hlt]
        exact Nat.lt_trans (hr q hlt) hltn
      · rw [hds2 q hge hq]
        exact hq
    · intro a b ha hb hab
      rcases Nat.lt_or_ge a m.currentCapacity with h1 | h1 <;>
        rcases Nat.lt_or_ge b m.currentCapacity with h2 | h2
      · rw [hds1 a h1, hds1 b h2] at hab
        exact hinj a b h1 h2 hab
      · rw [hds1 a h1, hds2 b h2 hb] at hab
        have := hr a h1
        omega
      · rw [hds2 a h1 ha, hds1 b h2] at hab
        have := hr b h2
        omega
      · rw [hds2 a h1 ha, hds2 b h2 hb] at hab
        exact hab
    · intro r hmem
      rcases List.mem_append.mp hmem with h | h
      · exact hw r h
      · rw [hpad] at h
        obtain ⟨i, _, rfl⟩ := List.mem_map.mp h
        exact List.length_replicate _ _
    · omega
    · rw [List.length_map]
      exact hsl
    · intro s hmem
      obtain ⟨s0, hs0, rfl⟩ := List.mem_map.mp hmem
      rw [List.length_append, List.length_replicate, hss s0 hs0]
      omega
    · intro i hi1 hi2
      rcases Nat.lt_or_ge i m.currentCapacity with hlt | hge
      · rw [hq1 i hlt]
        exact hdead i hi1 hlt
      · rw [hq2 i hge hi2]

theorem inv_mkManager : Inv nc nt (mkManager nc nt (V := V)) := by
  rw [mkManager]
  apply inv_resize
  refine ⟨⟨rfl, ?_, ?_, ?_⟩, Nat.le_refl _, ?_, ?_, ?_⟩ <;> dsimp only
  · intro i hi
    omega
  · intro a b ha hb _
    omega
  · intro r hmem
    cases hmem
  · exact List.length_replicate _ _
  · intro s hmem
    rw [List.eq_of_mem_replicate hmem]
    rfl
  · intro i _ hi
    omega

theorem goodEnts_setRecord {es : List EntityRec} {cap id : Nat} {r' : EntityRec}
    (hg : GoodEnts es cap (nc + nt))
    (hds : r'.dataSlot = (recAt es id).dataSlot)
    (hmb : r'.membership.length = nc + nt) :
    GoodEnts (es.set id r') cap (nc + nt) := by
  obtain ⟨hl, hr, hinj, hw⟩ := hg
  have hds' : ∀ q, dsAt (es.set id r') q = dsAt es q := by
    intro q
    rcases Nat.lt_or_ge id es.length with hid | hid
    · rcases eq_or_ne q id with rfl | hne
      · rw [dsAt, recAt_set_self hid, hds]
        rfl
      · rw [dsAt, recAt_set_ne hne]
        rfl
    · rw [List.set_eq_of_length_le hid]
  refine ⟨(List.length_set es id r').trans hl, ?_, ?_, ?_⟩
  · intro q hq
    rw [hds']
    exact hr q hq
  · intro a b ha hb hab
    rw [hds', hds'] at hab
    exact hinj a b ha hb hab
  · intro r hmem
    rcases List.mem_or_eq_of_mem_set hmem with h | rfl
    · exact hw r h
    · exact hmb

theorem alive_setRecord {es : List EntityRec} {id : Nat} {r' : EntityRec}
    (halive : r'.alive = (recAt es id).alive) (q : Nat) :
    (recAt (es.set id r') q).alive = (recAt es q).alive := by
  rcases Nat.lt_or_ge id es.length with hid | hid
  · rcases eq_or_ne q id with rfl | hne
    · rw [recAt_set_self hid, halive]
    · rw [recAt_set_ne hne]
  · rw [List.set_eq_of_length_le hid]

theorem width_recAt {es : List EntityRec} {cap : Nat}
    (hg : GoodEnts es cap (nc + nt)) {i : Nat} (hi : i < cap) :
    (recAt es i).membership.length = nc + nt :=
  hg.2.2.2 _ (recAt_mem (hg.1 ▸ hi))

theorem isAlive_index_lt {m : Manager V} {i : Nat}
    (h : isAlive m i = true) : i < m.currentSize ∧ i < m.entities.length := by
  rw [isAlive, hasEntity, Bool.and_eq_true, decide_eq_true_iff] at h
  refine ⟨h.1, ?_⟩
  by_contra hge
  rw [recAt, List.getD_eq_getElem?_getD, List.getElem?_eq_none (by omega)] at h
  exact absurd h.2 (by simp [default])

theorem guard_isAlive {m : Manager V} {id : Nat}
    (h : ¬(!hasEntity m id) = true ∧ ¬(!isAlive m id) = true) : isAlive m id = true := by
  cases hb : isAlive m id with
  | true => rfl
  | false => exact absurd (by rw [hb]; rfl) h.2

theorem inv_setMembership {m : Manager V} {id b : Nat} {v : Bool}
    (hm : Inv nc nt m) (halive : isAlive m id = true) :
    Inv nc nt
      { m with
        entities := m.entities.set id
          { recAt m.entities id with
            membership := (recAt m.entities id).membership.set b v } } := by
  obtain ⟨hg, hsz, hsl, hss, hdead⟩ := hm
  have hid := (isAlive_index_lt halive).2
  have hlen : m.entities.length = m.currentCapacity := hg.1
  refine ⟨?_, hsz, hsl, hss, ?_⟩ <;> dsimp only
  · refine goodEnts_setRecord nc nt hg rfl ?_
    show ((recAt m.entities id).membership.set b v).length = nc + nt
    rw [List.length_set]
    exact width_recAt nc nt hg (by omega)
  · intro i hi1 hi2
    rcases eq_or_ne i id with rfl | hne
    · rw [recAt_set_self hid]
      exact hdead i hi1 hi2
    · rw [recAt_set_ne hne]
      exact hdead i hi1 hi2

theorem inv_addComponent {m : Manager V} (hm : Inv nc nt m) (k id : Nat) (v : V) :
    Inv nc nt (addComponent k m id v) := by
  rw [addComponent]
  split
  · exact hm
  · rename_i hcond
    rw [Bool.or_eq_true, not_or] at hcond
    have halive : isAlive m id = true := guard_isAlive hcond
    have hstep := inv_setMembership nc nt (b := k) (v := true) hm halive
    obtain ⟨hg', hsz', _, _, hdead'⟩ := hstep
    obtain ⟨hg, hsz, hsl, hss, hdead⟩ := hm
    refine ⟨hg', hsz', ?_, ?_, hdead'⟩ <;> dsimp only
    · rw [List.length_set]
      exact hsl
    · intro s hmem
      rcases Nat.lt_or_ge k m.componentsStorage.length with hk | hk
      · rcases List.mem_or_eq_of_mem_set hmem with h | rfl
        · exact hss s h
        · rw [List.length_set]
          have : m.componentsStorage.getD k [] = m.componentsStorage[k] := by
            rw [List.getD_eq_getElem?_getD, List.getElem?_eq_getElem hk]
            rfl
          rw [this]
          exact hss _ (List.getElem_mem hk)
      · rw [List.set_eq_of_length_le hk] at hmem
        exact hss s hmem

theorem inv_removeComponent {m : Manager V} (hm : Inv nc nt m) (k id : Nat) :
    Inv nc nt (removeComponent k m id) := by
  rw [removeComponent]
  split
  · exact hm
  · rename_i hcond
    rw [Bool.or_eq_true, not_or] at hcond
    have halive : isAlive m id = true := guard_isAlive hcond
    exact inv_setMembership nc nt hm halive

theorem inv_addTag {m : Manager V} (hm : Inv nc nt m) (t id : Nat) :
    Inv nc nt (addTag nc t m id) := by
  rw [addTag]
  split
  · exact hm
  · rename_i hcond
    rw [Bool.or_eq_true, not_or] at hcond
    have halive : isAlive m id = true := guard_isAlive hcond
    exact inv_setMembership nc nt hm halive

theorem inv_removeTag {m : Manager V} (hm : Inv nc nt m) (t id : Nat) :
    Inv nc nt (removeTag nc t m id) := by
  rw [removeTag]
  split
  · exact hm
  · rename_i hcond
    rw [Bool.or_eq_true, not_or] at hcond
    have halive : isAlive m id = true := guard_isAlive hcond
    exact inv_setMembership nc nt hm halive

theorem inv_deleteEntity {m m' : Manager V} {i : Nat}
    (hm : Inv nc nt m) (h : deleteEntity m i = some m') : Inv nc nt m' := by
  rw [deleteEntity] at h
  split at h
  · rename_i hi
    injection h with h
    subst h
    obtain ⟨hg, hsz, hsl, hss, hdead⟩ := hm
    have hlen : m.entities.length = m.currentCapacity := hg.1
    refine ⟨?_, hsz, hsl, hss, ?_⟩ <;> dsimp only
    · refine goodEnts_setRecord nc nt hg rfl ?_
      show (recAt m.entities i).membership.length = nc + nt
      exact width_recAt nc nt hg (by omega)
    · intro q hq1 hq2
      rcases eq_or_ne q i with rfl | hne
      · rw [recAt_set_self hi]
      · rw [recAt_set_ne hne]
        exact hdead q hq1 hq2
  · cases h

theorem addEntity_spec {m : Manager V} (hm : Inv nc nt m) :
    (addEntity nc nt m).1 = m.currentSize ∧
    (addEntity nc nt m).2.currentSize = m.currentSize + 1 ∧
    Inv nc nt (addEntity nc nt m).2 ∧
    (recAt (addEntity nc nt m).2.entities m.currentSize).alive = true := by
  rw [addEntity]
  have hgrow : (0 : Nat) < EC_GROW_SIZE_AMOUNT := by
    rw [EC_GROW_SIZE_AMOUNT]
    omega
  set m1 := if m.currentSize = m.currentCapacity then
      resize nc nt m (m.currentCapacity + EC_GROW_SIZE_AMOUNT) else m with hm1
  have hinv1 : Inv nc nt m1 := by
    rw [hm1]
    split
    · exact inv_resize nc nt hm _
    · exact hm
  have hsize1 : m1.currentSize = m.currentSize := by
    rw [hm1]
    split
    · rw [resize]
      split
      · rfl
      · rfl
    · rfl
  have hlt : m1.currentSize < m1.currentCapacity := by
    rw [hm1]
    split
    · rename_i hfull
      rw [resize, if_neg (by omega)]
      simp only []
      omega
    · rename_i hne
      have := hm.2.1
      omega
  obtain ⟨hg1, hsz1, hsl1, hss1, hdead1⟩ := hinv1
  have hlen1 : m1.entities.length = m1.currentCapacity := hg1.1
  dsimp only
  refine ⟨hsize1, by rw [hsize1], ?_, ?_⟩
  · refine ⟨?_, ?_, hsl1, hss1, ?_⟩ <;> dsimp only
    · refine goodEnts_setRecord nc nt hg1 rfl ?_
      show (recAt m1.entities m1.currentSize).membership.length = nc + nt
      exact width_recAt nc nt hg1 hlt
    · omega
    · intro i hi1 hi2
      rcases eq_or_ne i m1.currentSize with rfl | hne
      · omega
      · rw [recAt_set_ne hne]
        exact hdead1 i (by omega) hi2
  · rw [← hsize1, recAt_set_self (by omega)]

theorem inv_cleanup {m : Manager V} (hm : Inv nc nt m) :
    Inv nc nt (cleanup nc nt m) := by
  rw [cleanup]
  split
  · exact hm
  · rename_i hsz0
    obtain ⟨hg, hsz, hsl, hss, hdead⟩ := hm
    have hspec := cleanupGo_spec nc nt m.entities 0 (m.currentSize - 1)
      m.currentCapacity
      (by omega) hg (by intro j hj1 hj2; exact hdead j (by omega) hj2)
    refine ⟨?_, ?_, ?_, ?_, ?_⟩ <;> dsimp only
    · exact hspec.1
    · have := hspec.2.1
      omega
    · exact hsl
    · exact hss
    · exact hspec.2.2

theorem reachable_inv {m : Manager V} (hm : Reachable nc nt m) : Inv nc nt m := by
  induction hm with
  | init => exact inv_mkManager nc nt
  | stepAddEntity _ ih => exact (addEntity_spec nc nt ih).2.2.1
  | stepDeleteEntity _ h ih => exact inv_deleteEntity nc nt ih h
  | stepAddComponent _ ih => exact inv_addComponent nc nt ih _ _ _
  | stepRemoveComponent _ ih => exact inv_removeComponent nc nt ih _ _
  | stepAddTag _ ih => exact inv_addTag nc nt ih _ _
  | stepRemoveTag _ ih => exact inv_removeTag nc nt ih _ _
  | stepCleanup _ ih => exact inv_cleanup nc nt ih

theorem listGetD_set_self {α : Type _} {l : List α} {n : Nat} {a d : α}
    (h : n < l.length) : (l.set n a).getD n d = a := by
  rw [List.getD_eq_getElem?_getD, List.getElem?_set_self h]
  rfl

theorem listGetD_set_ne {α : Type _} {l : List α} {n b : Nat} {a d : α}
    (h : b ≠ n) : (l.set n a).getD b d = l.getD b d := by
  rw [List.getD_eq_getElem?_getD, List.getD_eq_getElem?_getD,
    List.getElem?_set_ne (fun he => h he.symm)]

theorem listGetD_set_same {α : Type _} (l : List α) (n : Nat) (a : α) :
    (l.set n a).getD n a = a := by
  rcases Nat.lt_or_ge n l.length with h | h
  · exact listGetD_set_self h
  · rw [List.set_eq_of_length_le h, List.getD_eq_getElem?_getD,
      List.getElem?_eq_none h]
    rfl

theorem filterMap_guard {α β : Type _} (l : List α) (p : α → Bool) (g : α → β) :
    (l.filterMap fun a => if p a then some (g a) else none) =
      (l.filter p).map g := by
  induction l with
  | nil => rfl
  | cons a l ih =>
    rw [List.filterMap_cons, List.filter_cons]
    cases hp : p a
    · rw [if_neg (by simp [hp])]
      simpa using ih
    · rw [if_pos rfl]
      simp only [ih]
      rfl

theorem forMatchingSignature_eq (sig : List Nat) (m : Manager V) :
    forMatchingSignature nc nt sig m =
      ((List.range m.currentSize).filter fun i =>
          (recAt m.entities i).alive &&
            (bitsetAnd (generateBitset nc nt sig) (recAt m.entities i).membership
              == generateBitset nc nt sig)).map
        fun i =>
          (i, (signatureComponents nc sig).map fun k =>
            (m.componentsStorage.getD k []).getD (dsAt m.entities i) default) := by
  rw [forMatchingSignature]
  have hfun : (fun i =>
      if !(recAt m.entities i).alive then none
      else if bitsetAnd (generateBitset nc nt sig) (recAt m.entities i).membership
          == generateBitset nc nt sig then
        some (i, (signatureComponents nc sig).map fun k =>
          (m.componentsStorage.getD k []).getD (recAt m.entities i).dataSlot default)
      else none) =
      fun i =>
        if ((recAt m.entities i).alive &&
            (bitsetAnd (generateBitset nc nt sig) (recAt m.entities i).membership
              == generateBitset nc nt sig)) then
          some (i, (signatureComponents nc sig).map fun k =>
            (m.componentsStorage.getD k []).getD (dsAt m.entities i) default)
        else none := by
    funext i
    cases ha : (recAt m.entities i).alive <;>
      cases ht : (bitsetAnd (generateBitset nc nt sig) (recAt m.entities i).membership
        == generateBitset nc nt sig) <;>
      simp [dsAt]
  rw [hfun, filterMap_guard]

theorem storedLoop_eq (reg : List Bool × List Nat) (m : Manager V) (i : Nat) :
    storedLoop reg m i =
      ((List.range' i (m.currentSize - i)).filter fun q =>
          (recAt m.entities q).alive &&
            (bitsetAnd reg.1 (recAt m.entities q).membership == reg.1)).map
        fun q =>
          (q, reg.2.map fun k =>
            (m.componentsStorage.getD k []).getD (dsAt m.entities q) default) := by
  rw [storedLoop.eq_def]
  split
  · rename_i hlt
    have hsz : m.currentSize - i = (m.currentSize - (i + 1)) + 1 := by omega
    rw [hsz, List.range'_succ, List.filter_cons, storedLoop_eq reg m (i + 1)]
    cases ha : (recAt m.entities i).alive <;>
      cases ht : (bitsetAnd reg.1 (recAt m.entities i).membership == reg.1) <;>
      simp [ha, ht, dsAt]
  · rename_i hge
    have hsz : m.currentSize - i = 0 := by omega
    rw [hsz]
    rfl
termination_by m.currentSize - i

set_option maxRecDepth 200000 in
/-- C1: the claim states that after `cleanup` the indices `[0, currentSize)`
hold exactly the entities that were alive before the call, with no dead record
below `currentSize`.  The code violates this: in the reachable state `stateC1`
(one entity created then marked deleted, `currentSize = 1`), `cleanup` leaves
`currentSize = 1` with the dead record still at index 0, because the whole pass
is guarded by `while (lhs < rhs)` and never examines a size-1 table.  The
spec's own algorithm (step 1 before the `lhs >= rhs` test) would set
`currentSize = 0` here, so the code contradicts the documented intent. -/
theorem claim_C1 :
    Reachable 2 1 stateC1 ∧
    stateC1.currentSize = 1 ∧
    isAlive stateC1 0 = false ∧
    (cleanup 2 1 stateC1).currentSize = 1 ∧
    hasEntity (cleanup 2 1 stateC1) 0 = true ∧
    isAlive (cleanup 2 1 stateC1) 0 = false := by
  have hdel : deleteEntity (addEntity 2 1 baseManager).2 0 = some stateC1 := by decide
  rw [cleanup_eq_cleanupF]
  exact ⟨Reachable.stepDeleteEntity (Reachable.stepAddEntity Reachable.init) hdel,
    by decide, by decide, by decide, by decide, by decide⟩

set_option maxRecDepth 200000 in
/-- C8: the claim states that `cleanup` is idempotent.  The code violates
this: in the reachable state `stateC8` (three entities, entities 0 and 1
deleted), one `cleanup` stops with `currentSize = 2` while the dead record of
entity 1 is still at index 1 (the final swap makes `lhs` meet `rhs` and the
loop exits without rescanning), so a second `cleanup` shrinks the table again
to `currentSize = 1`. -/
theorem claim_C8 :
    Reachable 2 1 stateC8 ∧
    (cleanup 2 1 stateC8).currentSize = 2 ∧
    isAlive (cleanup 2 1 stateC8) 1 = false ∧
    (cleanup 2 1 (cleanup 2 1 stateC8)).currentSize = 1 ∧
    cleanup 2 1 (cleanup 2 1 stateC8) ≠ cleanup 2 1 stateC8 := by
  have hdel1 : deleteEntity (addEntity 2 1 (addEntity 2 1 (addEntity 2 1 baseManager).2).2).2 0
      = some stateC8a := by decide
  have hdel2 : deleteEntity stateC8a 1 = some stateC8 := by decide
  rw [cleanup_eq_cleanupF, cleanup_eq_cleanupF]
  exact ⟨Reachable.stepDeleteEntity
      (Reachable.stepDeleteEntity
        (Reachable.stepAddEntity (Reachable.stepAddEntity (Reachable.stepAddEntity
          Reachable.init))) hdel1) hdel2,
    by decide, by decide, by decide, by decide⟩

set_option maxRecDepth 200000 in
/-- C3 counterexample: the claim states that in every reachable state,
`addEntity` returns an id whose record has an empty membership bitset and a
`dataSlot` equal to the slot's own index.  `stateC3` is reachable, yet
`addEntity` on it returns id 0 whose record has `dataSlot = 1` (left by an
earlier compaction swap — `addEntity` only sets the alive flag) and a
non-empty membership bitset (bit 0 still set, because the `rhs == 0`
early-return path of `cleanup` reclaims slot 0 without resetting its
bitset). -/
theorem claim_C3_counterexample :
    Reachable 2 1 stateC3 ∧
    (addEntity 2 1 stateC3).1 = 0 ∧
    isAlive (addEntity 2 1 stateC3).2 0 = true ∧
    (recAt (addEntity 2 1 stateC3).2.entities 0).dataSlot = 1 ∧
    (recAt (addEntity 2 1 stateC3).2.entities 0).membership ≠ List.replicate 3 false := by
  have hb : deleteEntity twoEnt 0 = some stateC3b := by decide
  have he : deleteEntity stateC3d 0 = some stateC3e := by decide
  have hf : deleteEntity stateC3e 1 = some stateC3f := by decide
  have rb : Reachable 2 1 stateC3b :=
    Reachable.stepDeleteEntity
      (Reachable.stepAddEntity (Reachable.stepAddEntity Reachable.init)) hb
  have rc : Reachable 2 1 stateC3c := by
    have h := Reachable.stepCleanup rb
    rwa [cleanup_eq_cleanupF] at h
  have rd : Reachable 2 1 stateC3d :=
    Reachable.stepAddComponent (Reachable.stepAddEntity rc)
  have re : Reachable 2 1 stateC3e := Reachable.stepDeleteEntity rd he
  have rf : Reachable 2 1 stateC3f := Reachable.stepDeleteEntity re hf
  have r3 : Reachable 2 1 stateC3 := by
    have h := Reachable.stepCleanup rf
    rwa [cleanup_eq_cleanupF] at h
  exact ⟨r3, by decide, by decide, by decide, by decide⟩

set_option maxRecDepth 200000 in
/-- C5 counterexample: the claim states that every mutating call on a
non-existent id silently returns.  Id 256 does not exist in a fresh manager
(`hasEntity` is false), yet `deleteEntity` (`markDeleted`) on it throws
`std::out_of_range` from `entities.at(index)` (modelled as `none`) instead of
silently returning. -/
theorem claim_C5_counterexample :
    hasEntity baseManager 256 = false ∧
    isAlive baseManager 256 = false ∧
    deleteEntity baseManager 256 = none := by decide

set_option maxRecDepth 200000 in
/-- C6 counterexample: the claim states that `hasComponent`/`hasTag` on a
non-existent id (`id >= currentSize`) is a hard failure and never returns a
boolean.  In a fresh manager id 5 does not exist (`currentSize = 0`), but both
reads succeed and return `some false`: `entities.at(index)` only throws for
ids at or beyond the allocated capacity (256 here), not at `currentSize`. -/
theorem claim_C6_counterexample :
    hasEntity baseManager 5 = false ∧
    hasComponent 0 baseManager 5 = some false ∧
    hasTag 2 0 baseManager 5 = some false := by decide

/-- C2: `forMatchingSignature` produces exactly one handler invocation per
alive entity id below `currentSize` whose membership bitset ANDed with the
signature bitset equals the signature bitset, in increasing id order (the
filtered `range`), and passes the handler the id together with the component
values at that entity's data slot, in the signature's component order with
tags excluded. -/
theorem claim_C2 (sig : List Nat) (m : Manager V) :
    forMatchingSignature nc nt sig m =
      ((List.range m.currentSize).filter fun i =>
          isAlive m i &&
            (bitsetAnd (generateBitset nc nt sig) (recAt m.entities i).membership
              == generateBitset nc nt sig)).map
        fun i =>
          (i, (signatureComponents nc sig).map fun k =>
            (m.componentsStorage.getD k []).getD (dsAt m.entities i) default) := by
  rw [forMatchingSignature_eq]
  congr 1
  apply List.filter_congr
  intro i hi
  have hlt : i < m.currentSize := List.mem_range.mp hi
  simp [isAlive, hasEntity, hlt]

/-- C3 (amended): in every reachable state, `addEntity` returns an id equal
to the record's table position (the old `currentSize`); immediately
afterwards `hasEntity` and `isAlive` hold for it and `currentSize` has grown
by one.  (The original claim's further conjuncts — membership empty and
`dataSlot` equal to the slot's own index — are refuted by
`claim_C3_counterexample`: `addEntity` only sets the alive flag, so a slot
reused after compaction keeps whatever `dataSlot` and, on the early-return
path, whatever bitset compaction left there.) -/
theorem claim_C3 (m : Manager V) (hm : Reachable nc nt m) :
    (addEntity nc nt m).1 = m.currentSize ∧
    hasEntity (addEntity nc nt m).2 (addEntity nc nt m).1 = true ∧
    isAlive (addEntity nc nt m).2 (addEntity nc nt m).1 = true ∧
    (addEntity nc nt m).2.currentSize = m.currentSize + 1 := by
  obtain ⟨h1, h2, hinv, h4⟩ := addEntity_spec nc nt (reachable_inv nc nt hm)
  refine ⟨h1, ?_, ?_, h2⟩
  · rw [hasEntity, h1, h2]
    simp
  · rw [isAlive, hasEntity, h1, h2, h4]
    simp

/-- Witness for C3 at the freshly constructed manager. -/
theorem claim_C3_witness :
    Reachable 2 1 baseManager ∧
    ((addEntity 2 1 baseManager).1 = baseManager.currentSize ∧
     hasEntity (addEntity 2 1 baseManager).2 (addEntity 2 1 baseManager).1 = true ∧
     isAlive (addEntity 2 1 baseManager).2 (addEntity 2 1 baseManager).1 = true ∧
     (addEntity 2 1 baseManager).2.currentSize = baseManager.currentSize + 1) :=
  ⟨Reachable.init, claim_C3 2 1 baseManager Reachable.init⟩

/-- C4: in every reachable state, the data slot of a live entity lies in
`[0, currentCapacity)` and differs from the data slot of every other live
entity. -/
theorem claim_C4 (m : Manager V) (i j : Nat) (hm : Reachable nc nt m)
    (hi : isAlive m i = true) :
    dsAt m.entities i < m.currentCapacity ∧
    (isAlive m j = true → i ≠ j → dsAt m.entities i ≠ dsAt m.entities j) := by
  obtain ⟨⟨hl, hr, hinj, hw⟩, hsz, _, _, _⟩ := reachable_inv nc nt hm
  have hi' : i < m.currentCapacity := by
    have := (isAlive_index_lt hi).2
    omega
  refine ⟨hr i hi', ?_⟩
  intro hj hne heq
  have hj' : j < m.currentCapacity := by
    have := (isAlive_index_lt hj).2
    omega
  exact hne (hinj i j hi' hj' heq)

set_option maxRecDepth 200000 in
/-- Witness for C4 at a two-entity state. -/
theorem claim_C4_witness :
    Reachable 2 1 twoEnt ∧ isAlive twoEnt 0 = true ∧
    (dsAt twoEnt.entities 0 < twoEnt.currentCapacity ∧
     (isAlive twoEnt 1 = true → 0 ≠ 1 →
       dsAt twoEnt.entities 0 ≠ dsAt twoEnt.entities 1)) :=
  ⟨Reachable.stepAddEntity (Reachable.stepAddEntity Reachable.init), by decide,
    claim_C4 2 1 twoEnt 0 1
      (Reachable.stepAddEntity (Reachable.stepAddEntity Reachable.init)) (by decide)⟩

/-- C5 (amended): on a non-existent or dead entity, `addComponent`,
`removeComponent`, `addTag` and `removeTag` silently return and leave the
manager unchanged; `deleteEntity` (`markDeleted`) does so only for ids below
`currentCapacity` and throws `std::out_of_range` (modelled `none`) for ids at
or beyond it (refuting the original universal silent no-op claim, see
`claim_C5_counterexample`). -/
theorem claim_C5 (m : Manager V) (k t i : Nat) (v : V) (hm : Reachable nc nt m)
    (hdead : isAlive m i = false) :
    addComponent k m i v = m ∧
    removeComponent k m i = m ∧
    addTag nc t m i = m ∧
    removeTag nc t m i = m ∧
    (i < m.currentCapacity → deleteEntity m i = some m) ∧
    (m.currentCapacity ≤ i → deleteEntity m i = none) := by
  obtain ⟨hg, hsz, hsl, hss, hdeadInv⟩ := reachable_inv nc nt hm
  have hlen : m.entities.length = m.currentCapacity := hg.1
  refine ⟨?_, ?_, ?_, ?_, ?_, ?_⟩
  · rw [addComponent, if_pos (by rw [hdead]; simp)]
  · rw [removeComponent, if_pos (by rw [hdead]; simp)]
  · rw [addTag, if_pos (by rw [hdead]; simp)]
  · rw [removeTag, if_pos (by rw [hdead]; simp)]
  · intro hcap
    rw [deleteEntity, if_pos (by omega)]
    have halive0 : (recAt m.entities i).alive = false := by
      rcases Nat.lt_or_ge i m.currentSize with h | h
      · rw [isAlive, hasEntity, decide_eq_true h, Bool.true_and] at hdead
        exact hdead
      · exact hdeadInv i h (by omega)
    have hrec : ({ recAt m.entities i with alive := false } : EntityRec)
        = recAt m.entities i := by
      rw [← halive0]
    rw [hrec, set_recAt_self (by omega)]
  · intro hcap
    rw [deleteEntity, if_neg (by omega)]

set_option maxRecDepth 200000 in
/-- Witness for C5 at a fresh manager and the non-existent id 3 (below
capacity). -/
theorem claim_C5_witness :
    Reachable 2 1 baseManager ∧ isAlive baseManager 3 = false ∧
    (addComponent 0 baseManager 3 9 = baseManager ∧
     removeComponent 0 baseManager 3 = baseManager ∧
     addTag 2 0 baseManager 3 = baseManager ∧
     removeTag 2 0 baseManager 3 = baseManager ∧
     (3 < baseManager.currentCapacity → deleteEntity baseManager 3 = some baseManager) ∧
     (baseManager.currentCapacity ≤ 3 → deleteEntity baseManager 3 = none)) :=
  ⟨Reachable.init, by decide,
    claim_C5 2 1 baseManager 0 0 3 9 Reachable.init (by decide)⟩

/-- C6 (amended): `hasComponent` and `hasTag` fault (the `entities.at` throw,
modelled `none`) exactly for ids at or beyond `currentCapacity`; for any id
below `currentCapacity` — including non-existent ids in
`[currentSize, currentCapacity)` — they return the stored membership bit as a
plain boolean without any failure (refuting the original hard-failure claim,
see `claim_C6_counterexample`). -/
theorem claim_C6 (m : Manager V) (k t i : Nat) (hm : Reachable nc nt m) :
    (m.currentCapacity ≤ i → hasComponent k m i = none ∧ hasTag nc t m i = none) ∧
    (i < m.currentCapacity →
      hasComponent k m i = some ((recAt m.entities i).membership.getD k false) ∧
      hasTag nc t m i = some ((recAt m.entities i).membership.getD (nc + t) false)) := by
  have hlen : m.entities.length = m.currentCapacity := (reachable_inv nc nt hm).1.1
  constructor
  · intro hcap
    have hnone : m.entities[i]? = none := List.getElem?_eq_none (by omega)
    constructor
    · rw [hasComponent, hnone]
      rfl
    · rw [hasTag, hnone]
      rfl
  · intro hcap
    have hsome : m.entities[i]? = some (recAt m.entities i) := by
      rw [List.getElem?_eq_getElem (by omega), recAt, List.getD_eq_getElem?_getD,
        List.getElem?_eq_getElem (by omega)]
      rfl
    constructor
    · rw [hasComponent, hsome]
      rfl
    · rw [hasTag, hsome]
      rfl

/-- Witness for C6 at a fresh manager. -/
theorem claim_C6_witness :
    Reachable 2 1 baseManager ∧
    ((baseManager.currentCapacity ≤ 0 →
        hasComponent 0 baseManager 0 = none ∧ hasTag 2 0 baseManager 0 = none) ∧
     (0 < baseManager.currentCapacity →
        hasComponent 0 baseManager 0
          = some ((recAt baseManager.entities 0).membership.getD 0 false) ∧
        hasTag 2 0 baseManager 0
          = some ((recAt baseManager.entities 0).membership.getD (2 + 0) false))) :=
  ⟨Reachable.init, claim_C6 2 1 baseManager 0 0 0 Reachable.init⟩

/-- C7: on an existing, alive entity, `removeComponent` clears exactly that
entity's membership bit for the given kind: every component storage array,
`currentSize`, `currentCapacity`, every other entity record, and the record's
own alive flag, data slot and all other membership bits are unchanged, while
the bit for the removed kind reads false afterwards. -/
theorem claim_C7 (m : Manager V) (i k j b : Nat) (ha : isAlive m i = true) :
    (removeComponent k m i).componentsStorage = m.componentsStorage ∧
    (removeComponent k m i).currentSize = m.currentSize ∧
    (removeComponent k m i).currentCapacity = m.currentCapacity ∧
    (j ≠ i → recAt (removeComponent k m i).entities j = recAt m.entities j) ∧
    (recAt (removeComponent k m i).entities i).alive = (recAt m.entities i).alive ∧
    (recAt (removeComponent k m i).entities i).dataSlot
      = (recAt m.entities i).dataSlot ∧
    (b ≠ k → (recAt (removeComponent k m i).entities i).membership.getD b false
      = (recAt m.entities i).membership.getD b false) ∧
    (recAt (removeComponent k m i).entities i).membership.getD k false = false := by
  have hi : i < m.entities.length := (isAlive_index_lt ha).2
  have hE : hasEntity m i = true := by
    rw [isAlive, Bool.and_eq_true] at ha
    exact ha.1
  rw [removeComponent, if_neg (by simp [hE, ha])]
  refine ⟨rfl, rfl, rfl, ?_, ?_, ?_, ?_, ?_⟩
  · intro hne
    exact recAt_set_ne hne
  · rw [recAt_set_self hi]
  · rw [recAt_set_self hi]
  · intro hne
    rw [recAt_set_self hi]
    exact listGetD_set_ne hne
  · rw [recAt_set_self hi]
    exact listGetD_set_same _ _ _

set_option maxRecDepth 200000 in
/-- Witness for C7 at a state with a live entity carrying component 0. -/
theorem claim_C7_witness :
    isAlive entWithC0 0 = true ∧
    ((removeComponent 0 entWithC0 0).componentsStorage = entWithC0.componentsStorage ∧
     (removeComponent 0 entWithC0 0).currentSize = entWithC0.currentSize ∧
     (removeComponent 0 entWithC0 0).currentCapacity = entWithC0.currentCapacity ∧
     ((1 : Nat) ≠ 0 → recAt (removeComponent 0 entWithC0 0).entities 1
        = recAt entWithC0.entities 1) ∧
     (recAt (removeComponent 0 entWithC0 0).entities 0).alive
        = (recAt entWithC0.entities 0).alive ∧
     (recAt (removeComponent 0 entWithC0 0).entities 0).dataSlot
        = (recAt entWithC0.entities 0).dataSlot ∧
     ((1 : Nat) ≠ 0 → (recAt (removeComponent 0 entWithC0 0).entities 0).membership.getD 1 false
        = (recAt entWithC0.entities 0).membership.getD 1 false) ∧
     (recAt (removeComponent 0 entWithC0 0).entities 0).membership.getD 0 false = false) :=
  ⟨by decide, claim_C7 entWithC0 0 0 1 1 (by decide)⟩

/-- C9: on an alive entity and a declared component kind, `addComponent`
followed by `getEntityData` reads back exactly the constructed value, and
`hasComponent` reports true afterwards. -/
theorem claim_C9 (m : Manager V) (i k : Nat) (v : V) (hm : Reachable nc nt m)
    (ha : isAlive m i = true) (hk : k < nc) :
    getEntityData k (addComponent k m i v) i = some v ∧
    hasComponent k (addComponent k m i v) i = some true := by
  obtain ⟨hg, hsz, hsl, hss, hdead⟩ := reachable_inv nc nt hm
  have hlen : m.entities.length = m.currentCapacity := hg.1
  have hi : i < m.entities.length := (isAlive_index_lt ha).2
  have hE : hasEntity m i = true := by
    rw [isAlive, Bool.and_eq_true] at ha
    exact ha.1
  have hkk : k < m.componentsStorage.length := by omega
  have hveclen : (m.componentsStorage.getD k []).length = m.currentCapacity := by
    rw [List.getD_eq_getElem?_getD, List.getElem?_eq_getElem hkk]
    exact hss _ (List.getElem_mem hkk)
  have hds : (recAt m.entities i).dataSlot < (m.componentsStorage.getD k []).length := by
    rw [hveclen]
    exact hg.2.1 i (by omega)
  have hwidth : (recAt m.entities i).membership.length = nc + nt :=
    width_recAt nc nt hg (by omega)
  rw [addComponent, if_neg (by simp [hE, ha])]
  constructor
  · rw [getEntityData]
    dsimp only
    rw [List.getElem?_set_self hi]
    show ((m.componentsStorage.set k
        ((m.componentsStorage.getD k []).set (recAt m.entities i).dataSlot v)).getD
          k [])[(recAt m.entities i).dataSlot]? = some v
    rw [listGetD_set_self hkk, List.getElem?_set_self hds]
  · rw [hasComponent]
    dsimp only
    rw [List.getElem?_set_self hi]
    show some (((recAt m.entities i).membership.set k true).getD k false) = some true
    rw [listGetD_set_self (show k < (recAt m.entities i).membership.length by omega)]

set_option maxRecDepth 200000 in
/-- Witness for C9 at a two-entity state, adding component 0 with value 5 to
entity 0. -/
theorem claim_C9_witness :
    Reachable 2 1 twoEnt ∧ isAlive twoEnt 0 = true ∧ 0 < 2 ∧
    (getEntityData 0 (addComponent 0 twoEnt 0 5) 0 = some 5 ∧
     hasComponent 0 (addComponent 0 twoEnt 0 5) 0 = some true) :=
  ⟨Reachable.stepAddEntity (Reachable.stepAddEntity Reachable.init), by decide, by decide,
    claim_C9 2 1 twoEnt 0 0 5
      (Reachable.stepAddEntity (Reachable.stepAddEntity Reachable.init))
      (by decide) (by decide)⟩

/-- C10: if the stored matching functions are exactly the registrations made
by `addForMatchingFunction` for the signatures `sigs` (in registration order),
then `callForMatchingFunctions` runs them in that order, and each stored
closure — the separately coded loop of `Manager.hpp` lines 463-475, executed
against the manager state current at call time — produces exactly the
invocations a direct `forMatchingSignature` call with the same signature
would produce on that state. -/
theorem claim_C10 (m : Manager V) (sigs : List (List Nat))
    (hreg : m.forMatchingFunctions = sigs.map fun sig =>
      (generateBitset nc nt sig, signatureComponents nc sig)) :
    callForMatchingFunctions m = sigs.map fun sig => forMatchingSignature nc nt sig m := by
  rw [callForMatchingFunctions, hreg, List.map_map]
  apply List.map_congr_left
  intro sig _
  show storedLoop (generateBitset nc nt sig, signatureComponents nc sig) m 0
    = forMatchingSignature nc nt sig m
  rw [storedLoop_eq, forMatchingSignature_eq, List.range_eq_range']
  rfl

set_option maxRecDepth 200000 in
/-- Witness for C10: one registration for the signature `[0]` (component 0)
on a state with two entities where entity 0 carries component 0. -/
theorem claim_C10_witness :
    regState.forMatchingFunctions
      = [[0]].map (fun sig => (generateBitset 2 1 sig, signatureComponents 2 sig)) ∧
    callForMatchingFunctions regState
      = [[0]].map (fun sig => forMatchingSignature 2 1 sig regState) :=
  ⟨by decide, claim_C10 2 1 regState [[0]] (by decide)⟩

end EC
